import Mathlib

/-!
Shallow embedding of the Stack clip-store core (src/src-tauri/src/storage.rs
and the capture paths in src/src-tauri/src/lib.rs).

Timestamps (`chrono::DateTime<Utc>`) are modelled as integer milliseconds;
`Uuid::new_v4()` and `Utc::now()` are external nondeterminism, so freshly
generated ids and timestamps appear as explicit parameters of the operations
that call them in the Rust source.
-/

namespace Stack

/-- Window metadata, from `window.rs` (`WindowInfo`). -/
structure WindowInfo where
  app_name : String
  window_title : String
deriving DecidableEq, Repr

/-- Metadata associated with a clip (`ClipMetadata` in storage.rs);
`timestamp: DateTime<Utc>` is modelled as milliseconds. -/
structure ClipMetadata where
  timestamp : Int
  source_app : String
  window_title : String
deriving DecidableEq, Repr

/-- A single clip captured by the user (`ClipObject` in storage.rs). -/
structure ClipObject where
  id : String
  content : String
  metadata : ClipMetadata
  status : String
deriving DecidableEq, Repr

/-- `ClipObject::new(content, window_info)`; the uuid and the current time are
passed in as `newId` and `now`. -/
def ClipObject.mk_new (content : String) (wi : WindowInfo) (newId : String)
    (now : Int) : ClipObject :=
  { id := newId
    content := content
    metadata :=
      { timestamp := now
        source_app := wi.app_name
        window_title := wi.window_title }
    status := "raw" }

/-- A Pastebook is a named collection of clips (`Pastebook` in storage.rs). -/
structure Pastebook where
  id : String
  name : String
  created_at : Int
  clips : List ClipObject
deriving DecidableEq, Repr

/-- `Pastebook::new(name)`; uuid and current time passed in. -/
def Pastebook.mk_new (name : String) (newId : String) (now : Int) : Pastebook :=
  { id := newId, name := name, created_at := now, clips := [] }

/-- Storage container for all pastebooks (`AppStorage` in storage.rs). -/
structure AppStorage where
  pastebooks : List Pastebook
  active_pastebook_id : Option String
  api_key : Option String
deriving DecidableEq, Repr

/-- `AppStorage::default()`: one default pastebook, active; uuid and
current time passed in. -/
def AppStorage.mk_default (pbId : String) (now : Int) : AppStorage :=
  { pastebooks := [Pastebook.mk_new "My First Pastebook" pbId now]
    active_pastebook_id := some pbId
    api_key := none }

/-- `AppStorage::get_active_pastebook`: first pastebook whose id equals the
active id, if any. -/
def AppStorage.get_active_pastebook (r : AppStorage) : Option Pastebook :=
  r.active_pastebook_id.bind fun id => r.pastebooks.find? (fun p => p.id == id)

/-- Mutation through the first element satisfying the predicate, mirroring the
Rust `iter_mut().find(...)` pattern: only the first match is modified. -/
def modifyFirst (p : α → Bool) (f : α → α) : List α → List α
  | [] => []
  | x :: xs => if p x then f x :: xs else x :: modifyFirst p f xs

/-- Mutation of the active pastebook via `get_active_pastebook_mut`:
if there is no active id or no pastebook matches it, nothing changes. -/
def AppStorage.withActive (r : AppStorage) (f : Pastebook → Pastebook) :
    AppStorage :=
  match r.active_pastebook_id with
  | none => r
  | some id => { r with pastebooks := modifyFirst (fun p => p.id == id) f r.pastebooks }

/-- `AppStorage::create_pastebook(name)`; uuid and current time passed in.
Returns the new pastebook and the updated storage. -/
def AppStorage.create_pastebook (name : String) (newId : String) (now : Int)
    (r : AppStorage) : Pastebook × AppStorage :=
  let pb := Pastebook.mk_new name newId now
  (pb, { r with pastebooks := r.pastebooks ++ [pb],
                active_pastebook_id := some pb.id })

/-- `AppStorage::switch_pastebook(id)`. -/
def AppStorage.switch_pastebook (id : String) (r : AppStorage) :
    Bool × AppStorage :=
  if r.pastebooks.any (fun p => p.id == id) then
    (true, { r with active_pastebook_id := some id })
  else
    (false, r)

/-- `AppStorage::delete_pastebook(id)`. -/
def AppStorage.delete_pastebook (id : String) (r : AppStorage) :
    Bool × AppStorage :=
  if r.pastebooks.length ≤ 1 then
    (false, r)
  else
    let initial_len := r.pastebooks.length
    let remaining := r.pastebooks.filter (fun p => p.id != id)
    let active :=
      if r.active_pastebook_id = some id then
        (remaining.head?).map (fun p => p.id)
      else
        r.active_pastebook_id
    (remaining.length < initial_len,
      { r with pastebooks := remaining, active_pastebook_id := active })

/-- `AppStorage::rename_pastebook(id, new_name)`. -/
def AppStorage.rename_pastebook (id : String) (newName : String)
    (r : AppStorage) : Bool × AppStorage :=
  if r.pastebooks.any (fun p => p.id == id) then
    let pbs := modifyFirst (fun p => p.id == id)
      (fun p => { p with name := newName }) r.pastebooks
    (true, { r with pastebooks := pbs })
  else
    (false, r)

/-- `AppStorage::list_pastebooks()`. -/
def AppStorage.list_pastebooks (r : AppStorage) :
    List (String × String × Nat) :=
  r.pastebooks.map (fun p => (p.id, p.name, p.clips.length))

/-- `AppStorage::add_clip(clip)`: insert at the head of the active pastebook's
clips; returns false and changes nothing when there is no active pastebook. -/
def AppStorage.add_clip (clip : ClipObject) (r : AppStorage) :
    Bool × AppStorage :=
  if r.get_active_pastebook.isSome then
    (true, r.withActive (fun pb => { pb with clips := clip :: pb.clips }))
  else
    (false, r)

/-- `AppStorage::get_clips()`. -/
def AppStorage.get_clips (r : AppStorage) : List ClipObject :=
  (r.get_active_pastebook.map (fun p => p.clips)).getD []

/-- `AppStorage::delete_clip(id)`. -/
def AppStorage.delete_clip (id : String) (r : AppStorage) :
    Bool × AppStorage :=
  match r.get_active_pastebook with
  | none => (false, r)
  | some pb =>
      let kept := pb.clips.filter (fun c => c.id != id)
      (kept.length < pb.clips.length,
        r.withActive (fun p => { p with clips := p.clips.filter (fun c => c.id != id) }))

/-- `AppStorage::update_clip(id, content)`: replace the first matching clip's
content in place. -/
def AppStorage.update_clip (id : String) (content : String) (r : AppStorage) :
    Bool × AppStorage :=
  match r.get_active_pastebook with
  | none => (false, r)
  | some pb =>
      if pb.clips.any (fun c => c.id == id) then
        (true, r.withActive (fun p =>
          let cs := modifyFirst (fun c => c.id == id)
            (fun c => { c with content := content }) p.clips
          { p with clips := cs }))
      else
        (false, r)

/-- First loop of `AppStorage::reorder_clips`: for each id in order, push the
clip with that id when it exists. -/
def reorderPick (ids : List String) (clips : List ClipObject) :
    List ClipObject :=
  ids.filterMap (fun id => clips.find? (fun c => c.id == id))

/-- Second loop of `AppStorage::reorder_clips`: append each remaining clip
whose id is not already present in the accumulated new sequence. -/
def reorderRest (clips : List ClipObject) (acc : List ClipObject) :
    List ClipObject :=
  match clips with
  | [] => acc
  | c :: rest =>
      if acc.any (fun x => x.id == c.id) then
        reorderRest rest acc
      else
        reorderRest rest (acc ++ [c])

/-- The new clip sequence `AppStorage::reorder_clips` builds. -/
def reorderList (ids : List String) (clips : List ClipObject) :
    List ClipObject :=
  reorderRest clips (reorderPick ids clips)

/-- `AppStorage::reorder_clips(ids)`. -/
def AppStorage.reorder_clips (ids : List String) (r : AppStorage) :
    AppStorage :=
  r.withActive (fun pb => { pb with clips := reorderList ids pb.clips })

/-- `AppStorage::merge_clips(ids)`; the uuid of the merged clip and the
current time (for the fallback metadata) are passed in. -/
def AppStorage.merge_clips (ids : List String) (newId : String) (now : Int)
    (r : AppStorage) : Option ClipObject × AppStorage :=
  if ids.length < 2 then
    (none, r)
  else
    match r.get_active_pastebook with
    | none => (none, r)
    | some pb =>
        let found := ids.filterMap (fun id => pb.clips.find? (fun c => c.id == id))
        let merged_content := found.map (fun c => c.content)
        let first_metadata := (found.head?).map (fun c => c.metadata)
        if merged_content.isEmpty then
          (none, r)
        else
          let new_clip : ClipObject :=
            { id := newId
              content := String.intercalate "\n\n" merged_content
              metadata := first_metadata.getD
                { timestamp := now
                  source_app := "Stack"
                  window_title := "Merged Clip" }
              status := "raw" }
          (some new_clip,
            r.withActive (fun p =>
              { p with clips := new_clip ::
                  ids.foldl (fun cs id => cs.filter (fun c => c.id != id)) p.clips }))

/-- `AppStorage::get_all_content()`. -/
def AppStorage.get_all_content (r : AppStorage) : String :=
  ((r.get_active_pastebook.map (fun p =>
      String.intercalate "\n\n" (p.clips.map (fun c => c.content))))).getD ""

/-- `AppStorage::clear_clips()`. -/
def AppStorage.clear_clips (r : AppStorage) : AppStorage :=
  r.withActive (fun pb => { pb with clips := [] })

/-- The Rust check `content.trim().is_empty()`: true exactly when every
character of the string is whitespace. -/
def isBlank (s : String) : Bool :=
  s.data.all Char.isWhitespace

/-- The UI-facing `capture_clip` command (lib.rs, lines 28-46): reject
whitespace-only clipboard content, otherwise build a clip and add it
unconditionally (no dedup check). The clipboard read result, window info,
fresh uuid and current time are passed in. -/
def capture_clip (clipboard : Option String) (wi : WindowInfo)
    (newId : String) (now : Int) (r : AppStorage) :
    Except String (ClipObject × AppStorage) :=
  let content := clipboard.getD ""
  if isBlank content then
    Except.error "Clipboard is empty"
  else
    let clip := ClipObject.mk_new content wi newId now
    Except.ok (clip, (AppStorage.add_clip clip r).2)

/-- The global-shortcut capture handler (lib.rs, lines 208-241), from the
clipboard read onward: reject whitespace-only content, build the candidate
clip, discard it when the active pastebook's head clip has identical content
and a timestamp delta under 2000 ms, otherwise add it. The returned Bool is
true exactly when the handler reached the add/save/emit path. -/
def hotkeyCapture (clipboard_content : String) (wi : WindowInfo)
    (newId : String) (now : Int) (r : AppStorage) : Bool × AppStorage :=
  if isBlank clipboard_content then
    (false, r)
  else
    let clip := ClipObject.mk_new clipboard_content wi newId now
    let dup :=
      match r.get_active_pastebook with
      | some pb =>
          match pb.clips.head? with
          | some last =>
              last.content == clip.content &&
                (clip.metadata.timestamp - last.metadata.timestamp < 2000)
          | none => false
      | none => false
    if dup then
      (false, r)
    else
      (true, (AppStorage.add_clip clip r).2)

/-- One repository operation, with the externally generated uuids and
timestamps its Rust counterpart draws from the environment as payload. -/
inductive Op where
  | createPb (name : String) (newId : String) (now : Int)
  | switchPb (id : String)
  | deletePb (id : String)
  | renamePb (id : String) (newName : String)
  | addClip (c : ClipObject)
  | deleteClip (id : String)
  | updateClip (id : String) (content : String)
  | reorderClips (ids : List String)
  | mergeClips (ids : List String) (newId : String) (now : Int)
  | clearClips

/-- The storage state after one operation. -/
def Op.step (r : AppStorage) : Op → AppStorage
  | .createPb name newId now => (AppStorage.create_pastebook name newId now r).2
  | .switchPb id => (AppStorage.switch_pastebook id r).2
  | .deletePb id => (AppStorage.delete_pastebook id r).2
  | .renamePb id n => (AppStorage.rename_pastebook id n r).2
  | .addClip c => (AppStorage.add_clip c r).2
  | .deleteClip id => (AppStorage.delete_clip id r).2
  | .updateClip id content => (AppStorage.update_clip id content r).2
  | .reorderClips ids => AppStorage.reorder_clips ids r
  | .mergeClips ids newId now => (AppStorage.merge_clips ids newId now r).2
  | .clearClips => AppStorage.clear_clips r

/-- An operation's environment-supplied pastebook uuid is fresh for the state
it runs in (`Uuid::new_v4` collisions are assumed away). -/
def Op.fresh (r : AppStorage) : Op → Bool
  | .createPb _ newId _ => !(r.pastebooks.any (fun p => p.id == newId))
  | _ => true

/-- Run a sequence of operations. -/
def runOps (r : AppStorage) : List Op → AppStorage
  | [] => r
  | op :: ops => runOps (op.step r) ops

/-- Every `createPb` in the sequence carries a uuid fresh for the state it
executes in. -/
def freshOk (r : AppStorage) : List Op → Bool
  | [] => true
  | op :: ops => op.fresh r && freshOk (op.step r) ops

/-- Outcome of looking at the storage file, abstracting the file system:
the file is absent, unreadable, or holds content on which the JSON parse
either fails or yields a repository. -/
inductive FileState where
  | absent
  | unreadable
  | content (parsed : Option AppStorage)

/-- `AppStorage::load()` (storage.rs lines 100-113): parse the file when it
exists and is readable, and fall back to `AppStorage::default()` on a missing
file, a read error, or a parse error. The default's uuid and creation time
are passed in. -/
def load (fs : FileState) (pbId : String) (now : Int) : AppStorage :=
  match fs with
  | .absent => AppStorage.mk_default pbId now
  | .unreadable => AppStorage.mk_default pbId now
  | .content parsed => parsed.getD (AppStorage.mk_default pbId now)

/-- Position of the pastebook `get_active_pastebook_mut` would return. -/
def activeIdx (r : AppStorage) : Option Nat :=
  r.active_pastebook_id.bind fun aid =>
    r.pastebooks.findIdx? (fun p => p.id == aid)

/-- Frame condition of a clip operation: the active selector, the api key,
and every pastebook's identity, name and creation time are untouched, and
every pastebook other than the active one is exactly unchanged. -/
def FrameOK (r r1 : AppStorage) : Prop :=
  r1.active_pastebook_id = r.active_pastebook_id ∧
  r1.api_key = r.api_key ∧
  r1.pastebooks.map (fun p => (p.id, p.name, p.created_at)) =
    r.pastebooks.map (fun p => (p.id, p.name, p.created_at)) ∧
  ∀ i (h1 : i < r.pastebooks.length) (h2 : i < r1.pastebooks.length),
    activeIdx r ≠ some i →
      r1.pastebooks.get ⟨i, h2⟩ = r.pastebooks.get ⟨i, h1⟩

/-- Repository invariant: some pastebook exists, the active id points at one
of them, and pastebook ids are pairwise distinct. -/
def InvOK (r : AppStorage) : Prop :=
  r.pastebooks ≠ [] ∧
  (∃ aid, r.active_pastebook_id = some aid ∧
    aid ∈ r.pastebooks.map (fun p => p.id)) ∧
  (r.pastebooks.map (fun p => p.id)).Nodup

/- Concrete states used by witnesses and counterexamples. -/

/-- Example metadata at a given time. -/
def exMeta (t : Int) : ClipMetadata :=
  { timestamp := t, source_app := "s", window_title := "w" }

/-- Example clip. -/
def exClip (id content : String) (t : Int) : ClipObject :=
  { id := id, content := content, metadata := exMeta t, status := "raw" }

/-- Example storage: one active pastebook holding the given clips. -/
def exSt (clips : List ClipObject) : AppStorage :=
  { pastebooks := [{ id := "p1", name := "P", created_at := 0, clips := clips }]
    active_pastebook_id := some "p1"
    api_key := none }

/-- Example window info. -/
def exWin : WindowInfo := { app_name := "x", window_title := "y" }

/-- Example empty pastebook with a given id. -/
def exPb (id : String) : Pastebook :=
  { id := id, name := "P", created_at := 0, clips := [] }

/-- Example storage with two pastebooks, the first active. -/
def exSt2 : AppStorage :=
  { pastebooks := [exPb "p1", exPb "p2"]
    active_pastebook_id := some "p1"
    api_key := none }

/-! Helper lemmas about `modifyFirst` and `withActive`. -/

theorem modifyFirst_length (p : α → Bool) (f : α → α) (l : List α) :
    (modifyFirst p f l).length = l.length := by
  induction l with
  | nil => rfl
  | cons a as ih =>
      simp only [modifyFirst]
      split <;> simp [ih]

theorem find?_modifyFirst (p : α → Bool) (f : α → α) (l : List α) (x : α)
    (hfind : l.find? p = some x) (hf : p (f x) = true) :
    (modifyFirst p f l).find? p = some (f x) := by
  induction l with
  | nil => simp at hfind
  | cons a as ih =>
      by_cases ha : p a
      · have hx : a = x := by
          have := List.find?_cons_of_pos (p := p) (l := as) ha
          rw [this] at hfind
          exact Option.some.inj hfind
        subst hx
        simp [modifyFirst, ha, List.find?_cons_of_pos _ hf]
      · have hpa : p a = false := by simpa using ha
        have hfind' : as.find? p = some x := by
          rwa [List.find?_cons_of_neg _ (by simp [hpa])] at hfind
        simp [modifyFirst, hpa, List.find?_cons_of_neg, ih hfind']

theorem withActive_active_id (r : AppStorage) (f : Pastebook → Pastebook) :
    (r.withActive f).active_pastebook_id = r.active_pastebook_id := by
  cases h : r.active_pastebook_id <;> simp [AppStorage.withActive, h]

theorem withActive_api_key (r : AppStorage) (f : Pastebook → Pastebook) :
    (r.withActive f).api_key = r.api_key := by
  cases h : r.active_pastebook_id <;> simp [AppStorage.withActive, h]

theorem withActive_get_active (r : AppStorage) (f : Pastebook → Pastebook)
    (pb : Pastebook) (hact : r.get_active_pastebook = some pb)
    (hid : ∀ q, (f q).id = q.id) :
    (r.withActive f).get_active_pastebook = some (f pb) := by
  cases hacts : r.active_pastebook_id with
  | none => simp [AppStorage.get_active_pastebook, hacts] at hact
  | some aid =>
      simp only [AppStorage.get_active_pastebook, hacts, Option.some_bind] at hact
      have hp : (fun p => p.id == aid) (f pb) = true := by
        have := List.find?_some hact
        simpa [hid pb] using this
      simp only [AppStorage.get_active_pastebook, AppStorage.withActive, hacts,
        Option.some_bind]
      exact find?_modifyFirst _ f _ pb hact hp

theorem modifyFirst_map (p : α → Bool) (f : α → α) (g : α → β) (l : List α)
    (hg : ∀ x, g (f x) = g x) :
    (modifyFirst p f l).map g = l.map g := by
  induction l with
  | nil => rfl
  | cons a as ih =>
      simp only [modifyFirst]
      split <;> simp [ih, hg]

theorem modifyFirst_get_ne (p : α → Bool) (f : α → α) (l : List α) (i : Nat)
    (h1 : i < l.length) (h2 : i < (modifyFirst p f l).length)
    (hne : l.findIdx? p ≠ some i) :
    (modifyFirst p f l).get ⟨i, h2⟩ = l.get ⟨i, h1⟩ := by
  induction l generalizing i with
  | nil => simp at h1
  | cons a as ih =>
      by_cases hpa : p a = true
      · have hidx : (a :: as).findIdx? p = some 0 := by
          simp [List.findIdx?_cons, hpa]
        have hred : modifyFirst p f (a :: as) = f a :: as := by
          simp [modifyFirst, hpa]
        cases i with
        | zero => exact absurd (hidx ▸ rfl) hne
        | succ j =>
            revert h2
            rw [hred]
            intro h2
            rfl
      · have hpa' : p a = false := by simpa using hpa
        have hred : modifyFirst p f (a :: as) = a :: modifyFirst p f as := by
          simp [modifyFirst, hpa']
        cases i with
        | zero =>
            revert h2
            rw [hred]
            intro h2
            rfl
        | succ j =>
            have hj1 : j < as.length := by simpa using h1
            have hj2 : j < (modifyFirst p f as).length := by
              have := h2
              rw [hred] at this
              simpa using this
            have hne' : as.findIdx? p ≠ some j := by
              intro hcon
              apply hne
              simp [List.findIdx?_cons, hpa', hcon]
            revert h2
            rw [hred]
            intro h2
            exact ih j hj1 hj2 hne'

theorem modifyFirst_eq_map_of_nodupkeys (key : α → String) (a : String)
    (f : α → α) (l : List α) (hnd : (l.map key).Nodup) :
    modifyFirst (fun x => key x == a) f l =
      l.map (fun x => if key x = a then f x else x) := by
  induction l with
  | nil => rfl
  | cons x xs ih =>
      simp only [List.map_cons, List.nodup_cons] at hnd
      rcases hnd with ⟨hx, hxs⟩
      by_cases hk : key x = a
      · have hmap : xs.map (fun y => if key y = a then f y else y) = xs := by
          have hfix : ∀ y ∈ xs, (if key y = a then f y else y) = y := by
            intro y hy
            have hne : key y ≠ a := by
              intro hcon
              have hmem : key y ∈ xs.map key := List.mem_map_of_mem key hy
              rw [hcon, ← hk] at hmem
              exact hx hmem
            simp [hne]
          rw [List.map_congr_left hfix]
          exact List.map_id' xs
        simp [modifyFirst, hk, hmap]
      · simp [modifyFirst, hk, ih hxs]

theorem find?_key_of_mem (key : α → String) (l : List α) (x : α)
    (hnd : (l.map key).Nodup) (hx : x ∈ l) :
    l.find? (fun c => key c == key x) = some x := by
  induction l with
  | nil => simp at hx
  | cons y ys ih =>
      simp only [List.map_cons, List.nodup_cons] at hnd
      rcases hnd with ⟨hy, hys⟩
      by_cases hk : key y = key x
      · have hxy : y = x := by
          rcases List.mem_cons.mp hx with h | h
          · exact h.symm
          · exact absurd (by rw [hk]; exact List.mem_map_of_mem key h) hy
        subst hxy
        exact List.find?_cons_of_pos _ (by simp)
      · have hx' : x ∈ ys := by
          rcases List.mem_cons.mp hx with h | h
          · exact absurd (by rw [h]) hk
          · exact h
        rw [List.find?_cons_of_neg _ (by simp [hk]), ih hys hx']

theorem intercalate_pair (s x y : String) :
    String.intercalate s [x, y] = x ++ s ++ y := by
  simp [String.intercalate, String.intercalate.go]

theorem reorderPick_map_id (ids : List String) (clips : List ClipObject) :
    (reorderPick ids clips).map (fun c => c.id) =
      ids.filter (fun i => (clips.find? (fun c => c.id == i)).isSome) := by
  induction ids with
  | nil => rfl
  | cons i is ih =>
      unfold reorderPick at *
      cases hf : clips.find? (fun c => c.id == i) with
      | none => simp [List.filterMap_cons, hf, ih]
      | some c =>
          have hc : c.id = i := by simpa using List.find?_some hf
          simp [List.filterMap_cons, hf, ih, hc]

theorem reorderRest_eq : ∀ (clips : List ClipObject),
    (clips.map (fun c => c.id)).Nodup → ∀ acc : List ClipObject,
    reorderRest clips acc =
      acc ++ clips.filter (fun c => !(acc.any (fun x => x.id == c.id))) := by
  intro clips
  induction clips with
  | nil =>
      intro _ acc
      simp [reorderRest]
  | cons c rest ih =>
      intro hnd acc
      simp only [List.map_cons, List.nodup_cons] at hnd
      rcases hnd with ⟨hc, hrest⟩
      by_cases hany : acc.any (fun x => x.id == c.id) = true
      · rw [show reorderRest (c :: rest) acc = reorderRest rest acc from by
          simp [reorderRest, hany]]
        rw [ih hrest acc]
        simp [List.filter_cons, hany]
      · have hany' : acc.any (fun x => x.id == c.id) = false := by
          simpa using hany
        rw [show reorderRest (c :: rest) acc = reorderRest rest (acc ++ [c])
          from by simp [reorderRest, hany']]
        rw [ih hrest (acc ++ [c])]
        have hcong : rest.filter
              (fun x => !((acc ++ [c]).any (fun y => y.id == x.id))) =
            rest.filter (fun x => !(acc.any (fun y => y.id == x.id))) := by
          apply List.filter_congr
          intro x hx
          have hne : (c.id == x.id) = false := by
            have hcne : c.id ≠ x.id := by
              intro hcon
              exact hc (by rw [hcon]; exact List.mem_map_of_mem _ hx)
            simp [hcne]
          simp [List.any_append, hne]
        rw [hcong]
        simp [List.filter_cons, hany', List.append_assoc]

theorem mem_reorderPick (ids : List String) (clips : List ClipObject)
    (hnd : (clips.map (fun c => c.id)).Nodup) (c : ClipObject) :
    c ∈ reorderPick ids clips ↔ c ∈ clips ∧ c.id ∈ ids := by
  constructor
  · intro h
    rcases List.mem_filterMap.mp h with ⟨i, hi, hfind⟩
    have hcm := List.mem_of_find?_eq_some hfind
    have hcid : c.id = i := by simpa using List.find?_some hfind
    exact ⟨hcm, hcid ▸ hi⟩
  · rintro ⟨hcm, hcid⟩
    exact List.mem_filterMap.mpr ⟨c.id, hcid,
      find?_key_of_mem (fun x => x.id) clips c hnd hcm⟩

theorem reorderPick_any_eq (ids : List String) (clips : List ClipObject)
    (c : ClipObject) (hc : c ∈ clips) :
    (reorderPick ids clips).any (fun x => x.id == c.id) = ids.contains c.id := by
  by_cases hmem : c.id ∈ ids
  · have h1 : (reorderPick ids clips).any (fun x => x.id == c.id) = true := by
      rw [List.any_eq_true]
      obtain ⟨x, hfind⟩ : ∃ x, clips.find? (fun y => y.id == c.id) = some x :=
        Option.isSome_iff_exists.mp
          (List.find?_isSome.mpr ⟨c, hc, by simp⟩)
      have hxid : x.id = c.id := by simpa using List.find?_some hfind
      exact ⟨x, List.mem_filterMap.mpr ⟨c.id, hmem, hfind⟩, by simp [hxid]⟩
    have h2 : ids.contains c.id = true := by simpa using hmem
    rw [h1, h2]
  · have h1 : (reorderPick ids clips).any (fun x => x.id == c.id) = false := by
      rw [List.any_eq_false]
      intro x hxp
      rcases List.mem_filterMap.mp hxp with ⟨i, hi, hfind⟩
      have hxid : x.id = i := by simpa using List.find?_some hfind
      intro hbeq
      have : c.id = i := by
        have hxe : x.id = c.id := by simpa using hbeq
        rw [← hxe, hxid]
      exact hmem (this ▸ hi)
    have h2 : ids.contains c.id = false := by simpa using hmem
    rw [h1, h2]

theorem reorderList_spec (ids : List String) (clips : List ClipObject)
    (hnd : (clips.map (fun c => c.id)).Nodup) (hids : ids.Nodup) :
    reorderList ids clips = reorderPick ids clips ++
      clips.filter (fun c => !(ids.contains c.id)) ∧
    (reorderList ids clips).Perm clips := by
  have hstruct : reorderList ids clips = reorderPick ids clips ++
      clips.filter (fun c => !(ids.contains c.id)) := by
    unfold reorderList
    rw [reorderRest_eq clips hnd (reorderPick ids clips)]
    congr 1
    apply List.filter_congr
    intro c hc
    rw [reorderPick_any_eq ids clips c hc]
  refine ⟨hstruct, ?_⟩
  rw [hstruct]
  have hpicknd : (reorderPick ids clips).Nodup := by
    have hmapnd : ((reorderPick ids clips).map (fun c => c.id)).Nodup := by
      rw [reorderPick_map_id]
      exact hids.filter _
    exact hmapnd.of_map
  have hclipsnd : clips.Nodup := hnd.of_map
  have hperm1 : (reorderPick ids clips).Perm
      (clips.filter (fun c => ids.contains c.id)) := by
    apply List.Subperm.antisymm
    · apply hpicknd.subperm
      intro x hx
      rcases (mem_reorderPick ids clips hnd x).mp hx with ⟨hxc, hxid⟩
      exact List.mem_filter.mpr ⟨hxc, by simpa using hxid⟩
    · apply (hclipsnd.filter _).subperm
      intro x hx
      rcases List.mem_filter.mp hx with ⟨hxc, hxcont⟩
      exact (mem_reorderPick ids clips hnd x).mpr ⟨hxc, by simpa using hxcont⟩
  exact (hperm1.append_right _).trans (List.filter_append_perm _ clips)

theorem FrameOK_refl (r : AppStorage) : FrameOK r r :=
  ⟨rfl, rfl, rfl, fun _ _ _ _ => rfl⟩

theorem FrameOK_withActive (r : AppStorage) (f : Pastebook → Pastebook)
    (hf : ∀ pb, (f pb).id = pb.id ∧ (f pb).name = pb.name ∧
      (f pb).created_at = pb.created_at) :
    FrameOK r (r.withActive f) := by
  cases hacts : r.active_pastebook_id with
  | none =>
      have : r.withActive f = r := by simp [AppStorage.withActive, hacts]
      rw [this]
      exact FrameOK_refl r
  | some aid =>
      have hred : r.withActive f =
          { r with pastebooks :=
              modifyFirst (fun p => p.id == aid) f r.pastebooks } := by
        simp [AppStorage.withActive, hacts]
      rw [hred]
      refine ⟨rfl, rfl, ?_, ?_⟩
      · exact modifyFirst_map _ f _ r.pastebooks
          (fun x => by simp [(hf x).1, (hf x).2.1, (hf x).2.2])
      · intro i h1 h2 hne
        have hne' : r.pastebooks.findIdx? (fun p => p.id == aid) ≠ some i := by
          intro hcon
          apply hne
          simp [activeIdx, hacts, hcon]
        exact modifyFirst_get_ne _ f r.pastebooks i h1 (by simpa using h2) hne'

/-- Claim C10: every clip operation (add_clip, delete_clip, update_clip,
reorder_clips, merge_clips, clear_clips) modifies at most the active
pastebook's clip sequence: every non-active pastebook, the pastebook order,
the active selector, and the api key are unchanged. -/
theorem clip_ops_frame (r : AppStorage) (c : ClipObject)
    (id content newId : String) (ids : List String) (now : Int) :
    FrameOK r (AppStorage.add_clip c r).2 ∧
    FrameOK r (AppStorage.delete_clip id r).2 ∧
    FrameOK r (AppStorage.update_clip id content r).2 ∧
    FrameOK r (AppStorage.reorder_clips ids r) ∧
    FrameOK r (AppStorage.merge_clips ids newId now r).2 ∧
    FrameOK r (AppStorage.clear_clips r) := by
  have hW : ∀ f, (∀ pb : Pastebook, (f pb).id = pb.id ∧ (f pb).name = pb.name ∧
      (f pb).created_at = pb.created_at) → FrameOK r (r.withActive f) :=
    FrameOK_withActive r
  refine ⟨?_, ?_, ?_, ?_, ?_, ?_⟩
  · unfold AppStorage.add_clip
    split
    · exact hW _ (fun pb => ⟨rfl, rfl, rfl⟩)
    · exact FrameOK_refl r
  · unfold AppStorage.delete_clip
    split
    · exact FrameOK_refl r
    · exact hW _ (fun pb => ⟨rfl, rfl, rfl⟩)
  · unfold AppStorage.update_clip
    split
    · exact FrameOK_refl r
    · split
      · exact hW _ (fun pb => ⟨rfl, rfl, rfl⟩)
      · exact FrameOK_refl r
  · exact hW _ (fun pb => ⟨rfl, rfl, rfl⟩)
  · unfold AppStorage.merge_clips
    split
    · exact FrameOK_refl r
    · split
      · exact FrameOK_refl r
      · simp only []
        split
        · exact FrameOK_refl r
        · exact hW _ (fun pb => ⟨rfl, rfl, rfl⟩)
  · exact hW _ (fun pb => ⟨rfl, rfl, rfl⟩)

/-- Witness for C10: the frame condition holds for a concrete operation on a
concrete storage. -/
theorem clip_ops_frame_witness :
    FrameOK exSt2 (AppStorage.clear_clips exSt2) :=
  (clip_ops_frame exSt2 (exClip "a" "A" 0) "i" "c" "n" [] 0).2.2.2.2.2

/-- Claim C6: load returns the parsed repository when the file exists and
parses, and otherwise (absent file, read failure, parse failure) silently
returns the default repository, which has exactly one pastebook, a non-null
active id equal to that pastebook's id, and zero clips. -/
theorem load_spec (pbId : String) (now : Int) (r : AppStorage) :
    load (FileState.content (some r)) pbId now = r ∧
    load FileState.absent pbId now = AppStorage.mk_default pbId now ∧
    load FileState.unreadable pbId now = AppStorage.mk_default pbId now ∧
    load (FileState.content none) pbId now = AppStorage.mk_default pbId now ∧
    ∃ pb, (AppStorage.mk_default pbId now).pastebooks = [pb] ∧
      (AppStorage.mk_default pbId now).active_pastebook_id = some pb.id ∧
      pb.clips = [] :=
  ⟨rfl, rfl, rfl, rfl,
    ⟨Pastebook.mk_new "My First Pastebook" pbId now, rfl, rfl, rfl⟩⟩

/-- Claim C7: merge_clips given fewer than 2 ids returns nothing and mutates
nothing. -/
theorem merge_clips_too_few (ids : List String) (newId : String) (now : Int)
    (r : AppStorage) (h : ids.length < 2) :
    AppStorage.merge_clips ids newId now r = (none, r) := by
  unfold AppStorage.merge_clips
  simp [h]

/-- Witness for C7 at a singleton id list. -/
theorem merge_clips_too_few_witness :
    AppStorage.merge_clips ["x"] "n" 0 (exSt []) = (none, exSt []) :=
  merge_clips_too_few ["x"] "n" 0 (exSt []) (by decide)

/-- Claim C9: the UI-facing capture_clip command applies no deduplication:
for non-whitespace clipboard content it unconditionally adds a new clip at
the head of the active pastebook, so two identical captures in immediate
succession (any time delta) produce two stored clips. -/
theorem capture_clip_no_dedup (content : String) (wi : WindowInfo)
    (id1 id2 : String) (t1 t2 : Int) (r : AppStorage) (pb : Pastebook)
    (hc : isBlank content = false)
    (hact : r.get_active_pastebook = some pb) :
    ∃ r1 r2 pb1 pb2,
      capture_clip (some content) wi id1 t1 r =
        Except.ok (ClipObject.mk_new content wi id1 t1, r1) ∧
      capture_clip (some content) wi id2 t2 r1 =
        Except.ok (ClipObject.mk_new content wi id2 t2, r2) ∧
      r1.get_active_pastebook = some pb1 ∧
      pb1.clips = ClipObject.mk_new content wi id1 t1 :: pb.clips ∧
      r2.get_active_pastebook = some pb2 ∧
      pb2.clips = ClipObject.mk_new content wi id2 t2 ::
        ClipObject.mk_new content wi id1 t1 :: pb.clips ∧
      pb2.clips.length = pb.clips.length + 2 := by
  have hgetD : (some content).getD "" = content := rfl
  have step : ∀ (cid : String) (t : Int) (s : AppStorage) (q : Pastebook),
      s.get_active_pastebook = some q →
      capture_clip (some content) wi cid t s =
        Except.ok (ClipObject.mk_new content wi cid t,
          s.withActive (fun p =>
            { p with clips := ClipObject.mk_new content wi cid t :: p.clips })) ∧
      (s.withActive (fun p =>
          { p with clips := ClipObject.mk_new content wi cid t :: p.clips
            })).get_active_pastebook =
        some { q with clips := ClipObject.mk_new content wi cid t :: q.clips } := by
    intro cid t s q hq
    constructor
    · unfold capture_clip
      rw [hgetD]
      simp [AppStorage.add_clip, hc, hq]
    · exact withActive_get_active s _ q hq (fun p => rfl)
  obtain ⟨h1eq, h1act⟩ := step id1 t1 r pb hact
  obtain ⟨h2eq, h2act⟩ := step id2 t2 _ _ h1act
  refine ⟨_, _, _, _, h1eq, h2eq, h1act, rfl, h2act, rfl, by simp⟩

/-- Witness for C9: two identical captures 1 ms apart on a concrete storage
both succeed and stack two clips. -/
theorem capture_clip_no_dedup_witness :
    ∃ r1 r2 pb1 pb2,
      capture_clip (some "foo") exWin "c1" 0 (exSt []) =
        Except.ok (ClipObject.mk_new "foo" exWin "c1" 0, r1) ∧
      capture_clip (some "foo") exWin "c2" 1 r1 =
        Except.ok (ClipObject.mk_new "foo" exWin "c2" 1, r2) ∧
      r1.get_active_pastebook = some pb1 ∧
      pb1.clips = ClipObject.mk_new "foo" exWin "c1" 0 :: [] ∧
      r2.get_active_pastebook = some pb2 ∧
      pb2.clips = ClipObject.mk_new "foo" exWin "c2" 1 ::
        ClipObject.mk_new "foo" exWin "c1" 0 :: [] ∧
      pb2.clips.length = ([] : List ClipObject).length + 2 :=
  capture_clip_no_dedup "foo" exWin "c1" "c2" 0 1 (exSt [])
    (exPb "p1") (by decide) (by decide)

/-- Claim C3: in the hotkey capture pipeline, a candidate whose content
equals the active pastebook's head clip content with a timestamp delta under
2000 ms is discarded with no mutation; otherwise the candidate is added at
the head. Concretely, "foo" at t=0 then "foo" at t=500 stores one clip,
while "foo" at t=0 then "foo" at t=2500 stores two. -/
theorem hotkey_dedup_spec :
    (∀ (content : String) (wi : WindowInfo) (newId : String) (now : Int)
        (r : AppStorage) (pb : Pastebook) (last : ClipObject),
      r.get_active_pastebook = some pb →
      pb.clips.head? = some last →
      last.content = content →
      now - last.metadata.timestamp < 2000 →
      hotkeyCapture content wi newId now r = (false, r)) ∧
    (∀ (content : String) (wi : WindowInfo) (newId : String) (now : Int)
        (r : AppStorage) (pb : Pastebook),
      isBlank content = false →
      r.get_active_pastebook = some pb →
      (∀ last, pb.clips.head? = some last →
        last.content ≠ content ∨ 2000 ≤ now - last.metadata.timestamp) →
      ∃ pb1, hotkeyCapture content wi newId now r =
          (true, (AppStorage.add_clip (ClipObject.mk_new content wi newId now) r).2) ∧
        (hotkeyCapture content wi newId now r).2.get_active_pastebook = some pb1 ∧
        pb1.clips = ClipObject.mk_new content wi newId now :: pb.clips) ∧
    ((hotkeyCapture "foo" exWin "c2" 500
        (hotkeyCapture "foo" exWin "c1" 0 (exSt [])).2).2.get_clips.length = 1 ∧
      (hotkeyCapture "foo" exWin "c2" 2500
        (hotkeyCapture "foo" exWin "c1" 0 (exSt [])).2).2.get_clips.length = 2) := by
  refine ⟨?_, ?_, by decide, by decide⟩
  · intro content wi newId now r pb last hact hh hlc hdt
    unfold hotkeyCapture
    by_cases hemp : isBlank content = true
    · simp [hemp]
    · simp only [hemp, Bool.false_eq_true, if_false]
      rw [hact]
      simp [ClipObject.mk_new, hh, hlc, hdt]
  · intro content wi newId now r pb hc hact hguard
    have hres : hotkeyCapture content wi newId now r =
        (true, (AppStorage.add_clip (ClipObject.mk_new content wi newId now) r).2) := by
      unfold hotkeyCapture
      simp only [hc, Bool.false_eq_true, if_false]
      rw [hact]
      cases hh : pb.clips.head? with
      | none => simp [hh]
      | some last =>
          rcases hguard last hh with hne | hge
          · have hbeq : (last.content == content) = false := by simp [hne]
            simp [ClipObject.mk_new, hh, hbeq]
          · have hlt : ¬ (now - last.metadata.timestamp < 2000) := by omega
            simp [ClipObject.mk_new, hh, hlt]
    have hadd : (AppStorage.add_clip (ClipObject.mk_new content wi newId now) r).2 =
        r.withActive (fun p =>
          { p with clips := ClipObject.mk_new content wi newId now :: p.clips }) := by
      unfold AppStorage.add_clip
      simp [hact]
    refine ⟨{ pb with clips := ClipObject.mk_new content wi newId now :: pb.clips },
      hres, ?_, rfl⟩
    rw [hres]
    simp only []
    rw [hadd]
    exact withActive_get_active r _ pb hact (fun q => rfl)

/-- Witness for C3: the dedup branch discards a duplicate 500 ms later, and
the add branch stores a clip on an empty pastebook. -/
theorem hotkey_dedup_spec_witness :
    hotkeyCapture "foo" exWin "c2" 500
        (exSt [exClip "c1" "foo" 0]) = (false, exSt [exClip "c1" "foo" 0]) ∧
    ∃ pb1, hotkeyCapture "bar" exWin "c1" 0 (exSt []) =
        (true, (AppStorage.add_clip (ClipObject.mk_new "bar" exWin "c1" 0) (exSt [])).2) ∧
      (hotkeyCapture "bar" exWin "c1" 0 (exSt [])).2.get_active_pastebook = some pb1 ∧
      pb1.clips = ClipObject.mk_new "bar" exWin "c1" 0 :: [] :=
  ⟨hotkey_dedup_spec.1 "foo" exWin "c2" 500 (exSt [exClip "c1" "foo" 0])
      { id := "p1", name := "P", created_at := 0, clips := [exClip "c1" "foo" 0] }
      (exClip "c1" "foo" 0) (by decide) (by decide) (by decide) (by decide),
    hotkey_dedup_spec.2.1 "bar" exWin "c1" 0 (exSt []) (exPb "p1")
      (by decide) (by decide) (fun last hlast => by simp [exPb] at hlast)⟩

/-- Claim C8: update_clip on an id present in the active pastebook replaces
only that clip's content (id, metadata and status preserved), leaves every
other clip unchanged and returns true; on an absent id it returns false and
changes nothing. -/
theorem update_clip_spec (id : String) (content : String) (r : AppStorage)
    (pb : Pastebook) (hact : r.get_active_pastebook = some pb)
    (hnd : (pb.clips.map (fun c => c.id)).Nodup) :
    ((∃ c ∈ pb.clips, c.id = id) →
      (AppStorage.update_clip id content r).1 = true ∧
      ∃ pb1, (AppStorage.update_clip id content r).2.get_active_pastebook =
          some pb1 ∧
        pb1.id = pb.id ∧ pb1.name = pb.name ∧ pb1.created_at = pb.created_at ∧
        pb1.clips = pb.clips.map (fun c =>
          if c.id = id then { c with content := content } else c) ∧
        pb1.clips.length = pb.clips.length) ∧
    ((∀ c ∈ pb.clips, c.id ≠ id) →
      AppStorage.update_clip id content r = (false, r)) := by
  constructor
  · rintro ⟨c, hc, hcid⟩
    have hany : pb.clips.any (fun c => c.id == id) = true := by
      rw [List.any_eq_true]
      exact ⟨c, hc, by simp [hcid]⟩
    have hupd : AppStorage.update_clip id content r =
        (true, r.withActive (fun p =>
          let cs := modifyFirst (fun c => c.id == id)
            (fun c => { c with content := content }) p.clips
          { p with clips := cs })) := by
      unfold AppStorage.update_clip
      rw [hact]
      simp [hany]
    rw [hupd]
    refine ⟨rfl, ?_⟩
    have hget := withActive_get_active r
      (fun p =>
        let cs := modifyFirst (fun c => c.id == id)
          (fun c => { c with content := content }) p.clips
        { p with clips := cs })
      pb hact (fun q => rfl)
    refine ⟨_, hget, rfl, rfl, rfl, ?_, ?_⟩
    · exact modifyFirst_eq_map_of_nodupkeys (fun c => c.id) id
        (fun c => { c with content := content }) pb.clips hnd
    · show (modifyFirst (fun c => c.id == id)
          (fun c => { c with content := content }) pb.clips).length =
        pb.clips.length
      exact modifyFirst_length _ _ _
  · intro habs
    have hany : pb.clips.any (fun c => c.id == id) = false := by
      rw [List.any_eq_false]
      intro c hc
      simp [habs c hc]
    unfold AppStorage.update_clip
    rw [hact]
    simp [hany]

/-- Witness for C8: updating a present clip rewrites just its content, and
updating an absent id is a no-op. -/
theorem update_clip_spec_witness :
    ((AppStorage.update_clip "a" "C"
        (exSt [exClip "a" "A" 0, exClip "b" "B" 0])).1 = true ∧
      ∃ pb1, (AppStorage.update_clip "a" "C"
          (exSt [exClip "a" "A" 0, exClip "b" "B" 0])).2.get_active_pastebook =
            some pb1 ∧
        pb1.id = "p1" ∧ pb1.name = "P" ∧ pb1.created_at = 0 ∧
        pb1.clips = [exClip "a" "A" 0, exClip "b" "B" 0].map (fun c =>
          if c.id = "a" then { c with content := "C" } else c) ∧
        pb1.clips.length = [exClip "a" "A" 0, exClip "b" "B" 0].length) ∧
    AppStorage.update_clip "z" "C"
        (exSt [exClip "a" "A" 0, exClip "b" "B" 0]) =
      (false, exSt [exClip "a" "A" 0, exClip "b" "B" 0]) :=
  ⟨(update_clip_spec "a" "C" (exSt [exClip "a" "A" 0, exClip "b" "B" 0])
      { id := "p1", name := "P", created_at := 0,
        clips := [exClip "a" "A" 0, exClip "b" "B" 0] }
      (by decide) (by decide)).1 ⟨exClip "a" "A" 0, by decide, by decide⟩,
    (update_clip_spec "z" "C" (exSt [exClip "a" "A" 0, exClip "b" "B" 0])
      { id := "p1", name := "P", created_at := 0,
        clips := [exClip "a" "A" 0, exClip "b" "B" 0] }
      (by decide) (by decide)).2 (by decide)⟩

theorem withActive_map_id (r : AppStorage) (f : Pastebook → Pastebook)
    (hid : ∀ q, (f q).id = q.id) :
    (r.withActive f).pastebooks.map (fun p => p.id) =
      r.pastebooks.map (fun p => p.id) := by
  cases h : r.active_pastebook_id with
  | none => simp [AppStorage.withActive, h]
  | some aid =>
      simp only [AppStorage.withActive, h]
      exact modifyFirst_map _ f _ r.pastebooks hid

theorem InvOK_of_same (r r1 : AppStorage)
    (hmap : r1.pastebooks.map (fun p => p.id) =
      r.pastebooks.map (fun p => p.id))
    (hact : r1.active_pastebook_id = r.active_pastebook_id)
    (hinv : InvOK r) : InvOK r1 := by
  rcases hinv with ⟨hne, ⟨aid, hA, hAmem⟩, hnd⟩
  refine ⟨?_, ⟨aid, by rw [hact, hA], by rw [hmap]; exact hAmem⟩,
    by rw [hmap]; exact hnd⟩
  intro hnil
  rw [hnil] at hmap
  exact hne (List.map_eq_nil_iff.mp hmap.symm)

theorem InvOK_withActive (r : AppStorage) (f : Pastebook → Pastebook)
    (hid : ∀ q, (f q).id = q.id) (hinv : InvOK r) :
    InvOK (r.withActive f) :=
  InvOK_of_same r _ (withActive_map_id r f hid) (withActive_active_id r f) hinv

theorem exists_ne_key_of_two (key : α → String) (a : String) :
    ∀ (l : List α), 2 ≤ l.length → (l.map key).Nodup →
      ∃ x ∈ l, key x ≠ a := by
  intro l h2 hnd
  cases l with
  | nil => simp at h2
  | cons x t =>
      cases t with
      | nil => simp at h2
      | cons y t2 =>
          simp only [List.map_cons, List.nodup_cons] at hnd
          by_cases hx : key x = a
          · refine ⟨y, by simp, ?_⟩
            intro hcon
            exact hnd.1 (by rw [hx, ← hcon]; simp)
          · exact ⟨x, by simp, hx⟩

theorem delete_preserves (id : String) (r : AppStorage) (hinv : InvOK r) :
    InvOK (AppStorage.delete_pastebook id r).2 := by
  rcases hinv with ⟨hne, ⟨aid, hA, hAmem⟩, hnd⟩
  unfold AppStorage.delete_pastebook
  by_cases hlen : r.pastebooks.length ≤ 1
  · rw [if_pos hlen]
    exact ⟨hne, ⟨aid, hA, hAmem⟩, hnd⟩
  · rw [if_neg hlen]
    simp only []
    have h2 : 2 ≤ r.pastebooks.length := by omega
    obtain ⟨p0, hp0mem, hp0⟩ :=
      exists_ne_key_of_two (fun p => p.id) id r.pastebooks h2 hnd
    have hrem_mem : p0 ∈ r.pastebooks.filter (fun p => p.id != id) :=
      List.mem_filter.mpr ⟨hp0mem, by simp [hp0]⟩
    have hrem_ne : r.pastebooks.filter (fun p => p.id != id) ≠ [] :=
      List.ne_nil_of_mem hrem_mem
    have hsubnd : ((r.pastebooks.filter (fun p => p.id != id)).map
        (fun p => p.id)).Nodup :=
      hnd.sublist ((List.filter_sublist _).map _)
    refine ⟨hrem_ne, ?_, hsubnd⟩
    by_cases hAid : r.active_pastebook_id = some id
    · rw [if_pos hAid]
      obtain ⟨h0, t0, ht⟩ := List.exists_cons_of_ne_nil hrem_ne
      refine ⟨h0.id, by rw [ht]; rfl, ?_⟩
      rw [ht]
      simp
    · rw [if_neg hAid]
      refine ⟨aid, hA, ?_⟩
      rcases List.mem_map.mp hAmem with ⟨p, hp, hpid⟩
      have hpne : p.id ≠ id := by
        intro hcon
        apply hAid
        rw [hA, ← hpid, hcon]
      rw [← hpid]
      exact List.mem_map_of_mem _ (List.mem_filter.mpr ⟨hp, by simp [hpne]⟩)

theorem step_preserves (r : AppStorage) (op : Op) (hinv : InvOK r)
    (hf : op.fresh r = true) : InvOK (op.step r) := by
  cases op with
  | createPb name newId now =>
      have hfresh : newId ∉ r.pastebooks.map (fun p => p.id) := by
        simp only [Op.fresh, Bool.not_eq_true'] at hf
        rw [List.any_eq_false] at hf
        intro hmem
        rcases List.mem_map.mp hmem with ⟨p, hp, hpid⟩
        exact hf p hp (by simp [hpid])
      rcases hinv with ⟨hne, hex, hnd⟩
      simp only [Op.step]
      refine ⟨?_, ⟨newId, rfl, ?_⟩, ?_⟩
      · show r.pastebooks ++ [Pastebook.mk_new name newId now] ≠ []
        simp
      · show newId ∈
          (r.pastebooks ++ [Pastebook.mk_new name newId now]).map
            (fun p => p.id)
        simp [Pastebook.mk_new]
      · show ((r.pastebooks ++ [Pastebook.mk_new name newId now]).map
            (fun p => p.id)).Nodup
        rw [List.map_append]
        refine hnd.append (by simp) ?_
        intro x hx1 hx2
        simp only [Pastebook.mk_new, List.map_cons, List.map_nil,
          List.mem_singleton] at hx2
        subst hx2
        exact hfresh hx1
  | switchPb id =>
      simp only [Op.step]
      unfold AppStorage.switch_pastebook
      split
      next hcond =>
        rcases hinv with ⟨hne, _, hnd⟩
        refine ⟨hne, ⟨id, rfl, ?_⟩, hnd⟩
        rw [List.any_eq_true] at hcond
        rcases hcond with ⟨p, hp, hpid⟩
        have hpe : p.id = id := by simpa using hpid
        exact hpe ▸ List.mem_map_of_mem _ hp
      next => exact hinv
  | deletePb id =>
      simp only [Op.step]
      exact delete_preserves id r hinv
  | renamePb id newName =>
      simp only [Op.step]
      unfold AppStorage.rename_pastebook
      split
      next =>
        exact InvOK_of_same r _
          (modifyFirst_map _ _ _ r.pastebooks (fun x => rfl)) rfl hinv
      next => exact hinv
  | addClip c =>
      simp only [Op.step]
      unfold AppStorage.add_clip
      split
      · exact InvOK_withActive r _ (fun q => rfl) hinv
      · exact hinv
  | deleteClip id =>
      simp only [Op.step]
      unfold AppStorage.delete_clip
      split
      · exact hinv
      · exact InvOK_withActive r _ (fun q => rfl) hinv
  | updateClip id content =>
      simp only [Op.step]
      unfold AppStorage.update_clip
      split
      · exact hinv
      · split
        · exact InvOK_withActive r _ (fun q => rfl) hinv
        · exact hinv
  | reorderClips ids =>
      simp only [Op.step]
      exact InvOK_withActive r _ (fun q => rfl) hinv
  | mergeClips ids newId now =>
      simp only [Op.step]
      unfold AppStorage.merge_clips
      split
      · exact hinv
      · split
        · exact hinv
        · simp only []
          split
          · exact hinv
          · exact InvOK_withActive r _ (fun q => rfl) hinv
  | clearClips =>
      simp only [Op.step]
      exact InvOK_withActive r _ (fun q => rfl) hinv

theorem runOps_preserves : ∀ (ops : List Op) (r : AppStorage),
    InvOK r → freshOk r ops = true → InvOK (runOps r ops) := by
  intro ops
  induction ops with
  | nil =>
      intro r h _
      simpa [runOps] using h
  | cons op rest ih =>
      intro r h hfresh
      simp only [freshOk, Bool.and_eq_true] at hfresh
      simp only [runOps]
      exact ih (op.step r) (step_preserves r op h hfresh.1) hfresh.2

/-- Claim C5: for every sequence of repository operations starting from an
initialized (default) state, the repository is never left without
pastebooks and the active id always references a pastebook present in the
sequence. `freshOk` states that environment-generated pastebook uuids are
fresh, the collision-freeness `Uuid::new_v4` provides in the source. -/
theorem repo_invariant (pbId : String) (now : Int) (ops : List Op)
    (h : freshOk (AppStorage.mk_default pbId now) ops = true) :
    (runOps (AppStorage.mk_default pbId now) ops).pastebooks ≠ [] ∧
    ∃ aid, (runOps (AppStorage.mk_default pbId now) ops).active_pastebook_id
        = some aid ∧
      aid ∈ (runOps (AppStorage.mk_default pbId now) ops).pastebooks.map
        (fun p => p.id) := by
  have hinv0 : InvOK (AppStorage.mk_default pbId now) := by
    refine ⟨by simp [AppStorage.mk_default], ⟨pbId, rfl, ?_⟩,
      by simp [AppStorage.mk_default]⟩
    simp [AppStorage.mk_default, Pastebook.mk_new]
  rcases runOps_preserves ops _ hinv0 h with ⟨h1, h2, _⟩
  exact ⟨h1, h2⟩

/-- Witness for C5: a concrete operation sequence (create, delete the old
default, switch, clip edits) keeps the invariant. -/
theorem repo_invariant_witness :
    (runOps (AppStorage.mk_default "p0" 0)
        [Op.createPb "X" "q" 1, Op.deletePb "p0", Op.switchPb "q",
          Op.addClip (exClip "a" "A" 0), Op.clearClips]).pastebooks ≠ [] ∧
    ∃ aid, (runOps (AppStorage.mk_default "p0" 0)
        [Op.createPb "X" "q" 1, Op.deletePb "p0", Op.switchPb "q",
          Op.addClip (exClip "a" "A" 0),
          Op.clearClips]).active_pastebook_id = some aid ∧
      aid ∈ (runOps (AppStorage.mk_default "p0" 0)
        [Op.createPb "X" "q" 1, Op.deletePb "p0", Op.switchPb "q",
          Op.addClip (exClip "a" "A" 0), Op.clearClips]).pastebooks.map
        (fun p => p.id) :=
  repo_invariant "p0" 0
    [Op.createPb "X" "q" 1, Op.deletePb "p0", Op.switchPb "q",
      Op.addClip (exClip "a" "A" 0), Op.clearClips] (by decide)

/-- Counterexample for C1 as stated: with a single clip of id "a" and the
caller-supplied list ["a", "a"], reorder_clips duplicates the clip — the
result has length 2 while the pre-call length is 1, contradicting "the
resulting length always equals the pre-call length" and "no clip is ever
duplicated". -/
theorem reorder_clips_dup_counterexample :
    (AppStorage.reorder_clips ["a", "a"]
        (exSt [exClip "a" "A" 0])).get_clips =
      [exClip "a" "A" 0, exClip "a" "A" 0] ∧
    (exSt [exClip "a" "A" 0]).get_clips.length = 1 ∧
    (AppStorage.reorder_clips ["a", "a"]
        (exSt [exClip "a" "A" 0])).get_clips.length ≠
      (exSt [exClip "a" "A" 0]).get_clips.length :=
  ⟨by decide, by decide, by decide⟩

/-- Claim C1 (amended: the caller-supplied id list is duplicate-free, and the
pastebook satisfies the clip-id uniqueness invariant): reorder_clips builds
the new sequence by appending, per id in order, the matching clip if it
exists, then every unmentioned clip in prior relative order; the result is a
permutation of the old clips — same length, same members, same id set. -/
theorem reorder_clips_spec (ids : List String) (r : AppStorage)
    (pb : Pastebook) (hact : r.get_active_pastebook = some pb)
    (hnd : (pb.clips.map (fun c => c.id)).Nodup)
    (hids : ids.Nodup) :
    ∃ pb1, (AppStorage.reorder_clips ids r).get_active_pastebook = some pb1 ∧
      pb1.id = pb.id ∧
      pb1.clips = reorderPick ids pb.clips ++
        pb.clips.filter (fun c => !(ids.contains c.id)) ∧
      pb1.clips.Perm pb.clips ∧
      pb1.clips.length = pb.clips.length ∧
      (∀ c, c ∈ pb1.clips ↔ c ∈ pb.clips) ∧
      (pb1.clips.map (fun c => c.id)).Perm (pb.clips.map (fun c => c.id)) := by
  obtain ⟨hstruct, hperm⟩ := reorderList_spec ids pb.clips hnd hids
  have hget := withActive_get_active r
    (fun p => { p with clips := reorderList ids p.clips }) pb hact
    (fun q => rfl)
  refine ⟨_, hget, rfl, hstruct, hperm, hperm.length_eq, ?_, hperm.map _⟩
  intro c
  exact hperm.mem_iff

/-- Witness for C1: a stale, partial reorder request ["b", "z"] on clips
[a, b, c] yields [b, a, c] — a permutation of the original. -/
theorem reorder_clips_spec_witness :
    ∃ pb1, (AppStorage.reorder_clips ["b", "z"]
        (exSt [exClip "a" "A" 0, exClip "b" "B" 1,
          exClip "c" "C" 2])).get_active_pastebook = some pb1 ∧
      pb1.id = "p1" ∧
      pb1.clips = reorderPick ["b", "z"]
          [exClip "a" "A" 0, exClip "b" "B" 1, exClip "c" "C" 2] ++
        [exClip "a" "A" 0, exClip "b" "B" 1, exClip "c" "C" 2].filter
          (fun c => !((["b", "z"] : List String).contains c.id)) ∧
      pb1.clips.Perm
        [exClip "a" "A" 0, exClip "b" "B" 1, exClip "c" "C" 2] ∧
      pb1.clips.length =
        [exClip "a" "A" 0, exClip "b" "B" 1, exClip "c" "C" 2].length ∧
      (∀ c, c ∈ pb1.clips ↔
        c ∈ [exClip "a" "A" 0, exClip "b" "B" 1, exClip "c" "C" 2]) ∧
      (pb1.clips.map (fun c => c.id)).Perm
        ([exClip "a" "A" 0, exClip "b" "B" 1,
          exClip "c" "C" 2].map (fun c => c.id)) :=
  reorder_clips_spec ["b", "z"]
    (exSt [exClip "a" "A" 0, exClip "b" "B" 1, exClip "c" "C" 2])
    { id := "p1", name := "P", created_at := 0,
      clips := [exClip "a" "A" 0, exClip "b" "B" 1, exClip "c" "C" 2] }
    (by decide) (by decide) (by decide)

/-- Claim C2: merging two existing distinct clips [a, b] yields a new clip
whose content is content(a) ++ blank line ++ content(b), carrying the fresh
id, the first-matched clip's metadata and status "raw"; both originals are
removed from the active pastebook and the new clip sits at the head. -/
theorem merge_clips_pair (a b : ClipObject) (newId : String) (now : Int)
    (r : AppStorage) (pb : Pastebook)
    (hact : r.get_active_pastebook = some pb)
    (ha : a ∈ pb.clips) (hb : b ∈ pb.clips) (hab : a.id ≠ b.id)
    (hnd : (pb.clips.map (fun c => c.id)).Nodup) :
    ∃ c pb1,
      (AppStorage.merge_clips [a.id, b.id] newId now r).1 = some c ∧
      c.id = newId ∧
      c.content = a.content ++ "\n\n" ++ b.content ∧
      c.metadata = a.metadata ∧ c.status = "raw" ∧
      (AppStorage.merge_clips [a.id, b.id] newId now r).2.get_active_pastebook
        = some pb1 ∧
      pb1.id = pb.id ∧
      pb1.clips =
        c :: pb.clips.filter (fun x => x.id != a.id && x.id != b.id) ∧
      pb1.clips.head? = some c ∧
      a ∉ pb1.clips ∧ b ∉ pb1.clips := by
  have hfa : pb.clips.find? (fun c => c.id == a.id) = some a :=
    find?_key_of_mem (fun c => c.id) pb.clips a hnd ha
  have hfb : pb.clips.find? (fun c => c.id == b.id) = some b :=
    find?_key_of_mem (fun c => c.id) pb.clips b hnd hb
  have hred : AppStorage.merge_clips [a.id, b.id] newId now r =
      (some { id := newId,
              content := String.intercalate "\n\n" [a.content, b.content],
              metadata := a.metadata,
              status := "raw" },
        r.withActive (fun p =>
          { p with clips :=
              { id := newId,
                content := String.intercalate "\n\n" [a.content, b.content],
                metadata := a.metadata,
                status := "raw" } ::
              ((p.clips.filter (fun c => c.id != a.id)).filter
                (fun c => c.id != b.id)) })) := by
    unfold AppStorage.merge_clips
    rw [hact]
    simp [List.filterMap_cons, hfa, hfb]
  have hcnt : String.intercalate "\n\n" [a.content, b.content] =
      a.content ++ "\n\n" ++ b.content := intercalate_pair _ _ _
  have hfilter : (pb.clips.filter (fun c => c.id != a.id)).filter
        (fun c => c.id != b.id) =
      pb.clips.filter (fun x => x.id != a.id && x.id != b.id) := by
    rw [List.filter_filter]
    exact List.filter_congr (fun x _ => by rw [Bool.and_comm])
  have hlen : ∀ x : ClipObject,
      x.content = a.content ++ "\n\n" ++ b.content →
      (x.content.length = a.content.length + 2 + b.content.length) := by
    intro x hx
    rw [hx, String.length_append, String.length_append]
    rfl
  refine ⟨{ id := newId,
            content := String.intercalate "\n\n" [a.content, b.content],
            metadata := a.metadata, status := "raw" },
    { pb with clips :=
        { id := newId,
          content := String.intercalate "\n\n" [a.content, b.content],
          metadata := a.metadata, status := "raw" } ::
        ((pb.clips.filter (fun c => c.id != a.id)).filter
          (fun c => c.id != b.id)) },
    by rw [hred], rfl, hcnt, rfl, rfl, ?_, rfl, ?_, rfl, ?_, ?_⟩
  · rw [hred]
    exact withActive_get_active r _ pb hact (fun q => rfl)
  · show _ :: (pb.clips.filter (fun c => c.id != a.id)).filter
        (fun c => c.id != b.id) = _
    rw [hfilter]
  · intro hmem
    rcases List.mem_cons.mp hmem with hh | ht
    · have hac : a.content = a.content ++ "\n\n" ++ b.content := by
        conv_lhs => rw [hh]
        exact hcnt
      have hlc := hlen a hac
      omega
    · have hinner := (List.mem_filter.mp (List.mem_filter.mp ht).1).2
      simp at hinner
  · intro hmem
    rcases List.mem_cons.mp hmem with hh | ht
    · have hbc : b.content = a.content ++ "\n\n" ++ b.content := by
        conv_lhs => rw [hh]
        exact hcnt
      have hlc := hlen b hbc
      omega
    · have houter := (List.mem_filter.mp ht).2
      simp at houter

/-- Witness for C2: merging ["a", "b"] in a concrete two-clip pastebook. -/
theorem merge_clips_pair_witness :
    ∃ c pb1,
      (AppStorage.merge_clips ["a", "b"] "n" 5
          (exSt [exClip "a" "A" 0, exClip "b" "B" 1])).1 = some c ∧
      c.id = "n" ∧
      c.content = "A" ++ "\n\n" ++ "B" ∧
      c.metadata = exMeta 0 ∧ c.status = "raw" ∧
      (AppStorage.merge_clips ["a", "b"] "n" 5
          (exSt [exClip "a" "A" 0, exClip "b" "B" 1])).2.get_active_pastebook
        = some pb1 ∧
      pb1.id = "p1" ∧
      pb1.clips = c :: [exClip "a" "A" 0, exClip "b" "B" 1].filter
        (fun x => x.id != "a" && x.id != "b") ∧
      pb1.clips.head? = some c ∧
      exClip "a" "A" 0 ∉ pb1.clips ∧ exClip "b" "B" 1 ∉ pb1.clips :=
  merge_clips_pair (exClip "a" "A" 0) (exClip "b" "B" 1) "n" 5
    (exSt [exClip "a" "A" 0, exClip "b" "B" 1])
    { id := "p1", name := "P", created_at := 0,
      clips := [exClip "a" "A" 0, exClip "b" "B" 1] }
    (by decide) (by decide) (by decide) (by decide) (by decide)

/-- Claim C4: delete_pastebook returns false and changes nothing when exactly
one pastebook remains; otherwise it removes the pastebook with the given id
and, when that id was the active one, selects the first remaining pastebook
as active. -/
theorem delete_pastebook_spec (id : String) (r : AppStorage) :
    (r.pastebooks.length = 1 → AppStorage.delete_pastebook id r = (false, r)) ∧
    (2 ≤ r.pastebooks.length →
      ((AppStorage.delete_pastebook id r).2.pastebooks =
          r.pastebooks.filter (fun p => p.id != id) ∧
        (AppStorage.delete_pastebook id r).2.api_key = r.api_key ∧
        (r.active_pastebook_id = some id →
          (AppStorage.delete_pastebook id r).2.active_pastebook_id =
            ((r.pastebooks.filter (fun p => p.id != id)).head?).map
              (fun p => p.id)) ∧
        (r.active_pastebook_id ≠ some id →
          (AppStorage.delete_pastebook id r).2.active_pastebook_id =
            r.active_pastebook_id))) := by
  constructor
  · intro h1
    unfold AppStorage.delete_pastebook
    simp [h1]
  · intro h2
    have hnot : ¬ r.pastebooks.length ≤ 1 := by omega
    unfold AppStorage.delete_pastebook
    refine ⟨by simp [hnot], by simp [hnot], ?_, ?_⟩
    · intro ha
      simp [hnot, ha]
    · intro ha
      simp [hnot, ha]

/-- Witness for C4: refusal on a sole pastebook, and removal plus active
re-selection on a two-pastebook storage. -/
theorem delete_pastebook_spec_witness :
    AppStorage.delete_pastebook "p1" (exSt []) = (false, exSt []) ∧
    (AppStorage.delete_pastebook "p1" exSt2).2.pastebooks =
      exSt2.pastebooks.filter (fun p => p.id != "p1") ∧
    (AppStorage.delete_pastebook "p1" exSt2).2.active_pastebook_id =
      ((exSt2.pastebooks.filter (fun p => p.id != "p1")).head?).map
        (fun p => p.id) :=
  ⟨(delete_pastebook_spec "p1" (exSt [])).1 (by decide),
    ((delete_pastebook_spec "p1" exSt2).2 (by decide)).1,
    ((delete_pastebook_spec "p1" exSt2).2 (by decide)).2.2.1 (by decide)⟩

end Stack
